import Mathlib

/-!
Shallow embedding of `src/lib.rs` of mapbox/geocoder-abbreviations: the
per-language token catalog builder.  External collaborators — the `regex`
crate's compiler, `serde_json`'s string parser, and the embedded
`tokens/*.json` data files — are modelled as explicit function parameters
(`compile`, `parse`, `rawData`) threaded through the definitions; the
definitions themselves are translated from the Rust source.
-/

set_option autoImplicit false

deriving instance DecidableEq for Except

namespace GeocoderAbbrev

/-- Model of `regex::Regex`: a compiled pattern.  `as_str` is the source
pattern the regex was compiled from (as in the regex crate); `rep` stands for
the opaque compiled representation, which carries no equality semantics in the
Rust code. -/
structure Regex where
  as_str : String
  rep : Nat
deriving DecidableEq, Repr

/-- Model of the regex crate's `Regex::new`: compilation either succeeds with
a compiled pattern or fails with an error message (Rust `regex::Error`,
carried as its display string). -/
def RegexCompiler : Type := String → Except String Regex

/-- `enum Error` from lib.rs. -/
inductive Error where
  | LanguageCodeNotSupported (code : String)
  | TokenFileImportNotSupported (code : String)
  | TokenTypeNotSupported (value : String)
  | RegexError (msg : String)
deriving DecidableEq, Repr

/-- `impl From<regex::Error> for Error`: wraps the error's display string. -/
def Error.fromRegexError (e : String) : Error := Error.RegexError e

/-- `enum TokenType` from lib.rs. -/
inductive TokenType where
  | PostalBox
  | Cardinal
  | Number
  | Ordinal
  | Unit
  | Way
deriving DecidableEq, Repr

/-- `TokenType::from_str`: the fixed case-sensitive lookup table (a Rust
`match` on `&str`, i.e. a sequential exact-equality test). -/
def TokenType.from_str (s : String) : Except Error TokenType :=
  if s = "box" then Except.ok TokenType.PostalBox
  else if s = "cardinal" then Except.ok TokenType.Cardinal
  else if s = "number" then Except.ok TokenType.Number
  else if s = "ordinal" then Except.ok TokenType.Ordinal
  else if s = "unit" then Except.ok TokenType.Unit
  else if s = "way" then Except.ok TokenType.Way
  else Except.error (Error.TokenTypeNotSupported s)

/-- `struct InToken`: the intermediate deserialized record.  `span_boundaries`
is a Rust `u8`, carried as a `Nat` (its range is enforced at deserialization,
see `decodeU8`). -/
structure InToken where
  tokens : List String
  full : String
  canonical : String
  note : Option String
  only_countries : Option (List String)
  only_layers : Option (List String)
  prefer_full : Option Bool
  regex : Option Bool
  skip_boundaries : Option Bool
  skip_diacritic_stripping : Option Bool
  span_boundaries : Option Nat
  token_type : Option String
deriving DecidableEq, Repr

/-- `struct Token`: the final token model. -/
structure Token where
  tokens : List String
  full : String
  regex : Option Regex
  canonical : String
  note : Option String
  only_countries : Option (List String)
  only_layers : Option (List String)
  prefer_full : Bool
  skip_boundaries : Bool
  skip_diacritic_stripping : Bool
  span_boundaries : Option Nat
  token_type : Option TokenType
deriving DecidableEq, Repr

/-- `impl PartialEq for Token`: field-wise equality, except that the `regex`
field is compared by its source pattern (`as_str`) only, never by the compiled
representation. -/
def Token.beq (self other : Token) : Bool :=
  let self_regex : Option String :=
    match self.regex with
    | some r => some r.as_str
    | none => none
  let other_regex : Option String :=
    match other.regex with
    | some r => some r.as_str
    | none => none
  self_regex == other_regex &&
  self.tokens == other.tokens &&
  self.full == other.full &&
  self.canonical == other.canonical &&
  self.note == other.note &&
  self.only_countries == other.only_countries &&
  self.only_layers == other.only_layers &&
  self.prefer_full == other.prefer_full &&
  self.skip_boundaries == other.skip_boundaries &&
  self.skip_diacritic_stripping == other.skip_diacritic_stripping &&
  self.span_boundaries == other.span_boundaries &&
  self.token_type == other.token_type

/-- The struct literal built by `Token::new`, once the `regex` field value is
known: `tokens` seeded with `[canonical, full]`, every other optional field at
its default. -/
def Token.new_mk (full canonical : String) (token_type : Option TokenType)
    (rx : Option Regex) : Token :=
  { regex := rx
    tokens := [canonical, full]
    full := full
    canonical := canonical
    note := none
    only_countries := none
    only_layers := none
    prefer_full := false
    skip_boundaries := false
    skip_diacritic_stripping := false
    span_boundaries := none
    token_type := token_type }

/-- `Token::new`: direct constructor.  When `regex` is true the `full` field
is compiled (a failure propagates via `?`); otherwise no compilation is
attempted. -/
def Token.new (compile : RegexCompiler) (full canonical : String)
    (token_type : Option TokenType) (regex : Bool) : Except Error Token :=
  match regex with
  | true =>
    match compile full with
    | Except.ok r => Except.ok (Token.new_mk full canonical token_type (some r))
    | Except.error e => Except.error (Error.fromRegexError e)
  | false => Except.ok (Token.new_mk full canonical token_type none)

/-- The struct literal built by `Token::from_input`, once the `regex` and
`token_type` field values are known: boolean options default to `false` via
`unwrap_or(false)`, the other fields carry over. -/
def Token.from_input_mk (input : InToken) (rx : Option Regex)
    (tt : Option TokenType) : Token :=
  { regex := rx
    tokens := input.tokens
    full := input.full
    canonical := input.canonical
    note := input.note
    only_countries := input.only_countries
    only_layers := input.only_layers
    prefer_full := input.prefer_full.getD false
    skip_boundaries := input.skip_boundaries.getD false
    skip_diacritic_stripping := input.skip_diacritic_stripping.getD false
    span_boundaries := input.span_boundaries
    token_type := tt }

/-- The `token_type` half of `Token::from_input`: an unknown type string
aborts with `TokenTypeNotSupported`. -/
def Token.from_input_rest (input : InToken) (rx : Option Regex) :
    Except Error Token :=
  match input.token_type with
  | none => Except.ok (Token.from_input_mk input rx none)
  | some t =>
    match TokenType.from_str t with
    | Except.ok t' => Except.ok (Token.from_input_mk input rx (some t'))
    | Except.error e => Except.error e

/-- `Token::from_input`: converts an `InToken` into a `Token`.  The `regex`
field is evaluated first (a failed compilation propagates, via the `?` in the
struct literal, before the `token_type` lookup is attempted — Rust evaluates
struct-literal fields in source order). -/
def Token.from_input (compile : RegexCompiler) (input : InToken) :
    Except Error Token :=
  match input.regex with
  | some true =>
    match compile input.full with
    | Except.ok r => Token.from_input_rest input (some r)
    | Except.error e => Except.error (Error.fromRegexError e)
  | some false => Token.from_input_rest input none
  | none => Token.from_input_rest input none

/-- `LANGUAGE_CODES`: the fixed registry of 17 supported language codes. -/
def LANGUAGE_CODES : List String :=
  ["de", "en", "es", "et", "fi", "fr", "he", "id", "it", "ja", "nl", "no",
   "pl", "pt", "ro", "ru", "sv"]

/-- `chars1` is a character-list prefix of `chars2`. -/
def charsStartWith : List Char → List Char → Bool
  | [], _ => true
  | _ :: _, [] => false
  | a :: as, b :: bs => a = b && charsStartWith as bs

/-- `needle` occurs as a contiguous run inside the character list. -/
def charsContain (needle : List Char) : List Char → Bool
  | [] => charsStartWith needle []
  | c :: cs => charsStartWith needle (c :: cs) || charsContain needle cs

/-- Model of Rust's `str::contains(substr)`: substring containment. -/
def strContains (hay needle : String) : Bool :=
  charsContain needle.data hay.data

/-- The message substring `prepare` sniffs to recognize a look-around
compilation failure. -/
def lookaroundMsg : String :=
  "look-around, including look-ahead and look-behind, is not supported"

/-- The warning `prepare` prints when it skips a look-around record,
naming the offending `full` value. -/
def lookaroundWarn (full : String) : String :=
  "warn - filtered unsupported lookaround regex " ++ full

/-- The inner loop of `prepare` over one language's parsed records: each
record is compiled via `Token::from_input`; a `RegexError` whose message
contains the look-around phrase skips the record with a warning (second
component: the warnings printed to stdout, in order), any other error aborts.
Surviving tokens keep their source order. -/
def processRecords (compile : RegexCompiler) :
    List InToken → Except Error (List Token) × List String
  | [] => (Except.ok [], [])
  | tk :: rest =>
    match Token.from_input compile tk with
    | Except.ok o =>
      match processRecords compile rest with
      | (Except.ok toks, ws) => (Except.ok (o :: toks), ws)
      | (Except.error e, ws) => (Except.error e, ws)
    | Except.error err =>
      match err with
      | Error.RegexError e =>
        if strContains e lookaroundMsg then
          match processRecords compile rest with
          | (r, ws) => (r, lookaroundWarn tk.full :: ws)
        else (Except.error err, [])
      | _ => (Except.error err, [])

/-- The result map, `HashMap<String, Vec<Token>>`: modelled as an association
list where `hmInsert` replaces an existing binding in place (HashMap insert
semantics). -/
abbrev HMap : Type := List (String × List Token)

/-- `HashMap::insert`: replace the binding for `k` if present, else append. -/
def hmInsert (m : HMap) (k : String) (v : List Token) : HMap :=
  match m with
  | [] => [(k, v)]
  | (k', v') :: rest =>
    if k' = k then (k, v) :: rest else (k', v') :: hmInsert rest k v

/-- Lookup in the map model. -/
def hmFind? (m : HMap) (k : String) : Option (List Token) :=
  match m with
  | [] => none
  | (k', v') :: rest => if k' = k then some v' else hmFind? rest k

/-- The key set of the map model. -/
def hmKeys (m : HMap) : List String :=
  m.map Prod.fst

/-- `import`: resolves a language code to its raw embedded JSON text.  The
contents of the `tokens/*.json` data files are the external `rawData`
parameter; the 17-way match is from the source. -/
def import' (rawData : String → String) (lc : String) : Except Error String :=
  if lc = "de" then Except.ok (rawData "de")
  else if lc = "en" then Except.ok (rawData "en")
  else if lc = "es" then Except.ok (rawData "es")
  else if lc = "et" then Except.ok (rawData "et")
  else if lc = "fi" then Except.ok (rawData "fi")
  else if lc = "fr" then Except.ok (rawData "fr")
  else if lc = "he" then Except.ok (rawData "he")
  else if lc = "id" then Except.ok (rawData "id")
  else if lc = "it" then Except.ok (rawData "it")
  else if lc = "ja" then Except.ok (rawData "ja")
  else if lc = "nl" then Except.ok (rawData "nl")
  else if lc = "no" then Except.ok (rawData "no")
  else if lc = "pl" then Except.ok (rawData "pl")
  else if lc = "pt" then Except.ok (rawData "pt")
  else if lc = "ro" then Except.ok (rawData "ro")
  else if lc = "ru" then Except.ok (rawData "ru")
  else if lc = "sv" then Except.ok (rawData "sv")
  else Except.error (Error.TokenFileImportNotSupported lc)

/-- `serde_json::from_str::<Vec<InToken>>`: the external JSON parser, as a
parameter; `none` models a parse failure (which `prepare` turns into a
process abort via `.expect`). -/
def JsonParser : Type := String → Option (List InToken)

/-- The loop body of `prepare` with the accumulated map: for each code fetch
the raw text (`import`), parse it (a parse failure panics: outer `none`),
process the records, and insert the language's token list.  The first hard
error aborts the whole build. -/
def prepareGo (compile : RegexCompiler) (parse : JsonParser)
    (rawData : String → String) :
    List String → HMap → Option (Except Error HMap)
  | [], map => some (Except.ok map)
  | lc :: rest, map =>
    match import' rawData lc with
    | Except.error e => some (Except.error e)
    | Except.ok raw =>
      match parse raw with
      | none => none
      | some parsed =>
        match processRecords compile parsed with
        | (Except.error e, _) => some (Except.error e)
        | (Except.ok tokens, _) =>
          prepareGo compile parse rawData rest (hmInsert map lc tokens)

/-- `prepare`: builds the map for the given codes, starting empty.  The outer
`Option` models the `.expect` panic on malformed JSON (`none` = panic, never
a typed `Error`). -/
def prepare (compile : RegexCompiler) (parse : JsonParser)
    (rawData : String → String) (v : List String) :
    Option (Except Error HMap) :=
  prepareGo compile parse rawData v []

/-- The validation loop of `config`: the first code not in `LANGUAGE_CODES`
(in input order) yields `LanguageCodeNotSupported`. -/
def validateCodes : List String → Except Error Unit
  | [] => Except.ok ()
  | lc :: rest =>
    if lc ∈ LANGUAGE_CODES then validateCodes rest
    else Except.error (Error.LanguageCodeNotSupported lc)

/-- `config`: the public entry point.  An empty code list builds the full
registry; otherwise the codes are validated before any language is
processed. -/
def config (compile : RegexCompiler) (parse : JsonParser)
    (rawData : String → String) (v : List String) :
    Option (Except Error HMap) :=
  if v.isEmpty then prepare compile parse rawData LANGUAGE_CODES
  else
    match validateCodes v with
    | Except.error e => some (Except.error e)
    | Except.ok _ => prepare compile parse rawData v

/-- The token list `prepare` computes for one language, as a function of the
collaborators: `none` when parsing panics or a hard record error occurs. -/
def langTokens (compile : RegexCompiler) (parse : JsonParser)
    (rawData : String → String) (lc : String) : Option (List Token) :=
  match parse (rawData lc) with
  | none => none
  | some parsed =>
    match processRecords compile parsed with
    | (Except.error _, _) => none
    | (Except.ok tokens, _) => some tokens

/-- A JSON value, for the record-level deserialization of `InToken`. -/
inductive Json where
  | null
  | bool (b : Bool)
  | num (n : Int)
  | str (s : String)
  | arr (elems : List Json)
  | obj (fields : List (String × Json))

/-- First binding of a key in a JSON object. -/
def getField? (fields : List (String × Json)) (name : String) : Option Json :=
  match fields with
  | [] => none
  | (k, v) :: rest => if k = name then some v else getField? rest name

/-- Deserialize a JSON string. -/
def decodeString : Json → Option String
  | Json.str s => some s
  | _ => none

/-- Deserialize a JSON boolean. -/
def decodeBool : Json → Option Bool
  | Json.bool b => some b
  | _ => none

/-- Deserialize a `Vec<String>`: any array of strings, the empty array
included. -/
def decodeStringArray : Json → Option (List String)
  | Json.arr xs => xs.mapM decodeString
  | _ => none

/-- Deserialize a `u8`: a number in `0..=255`. -/
def decodeU8 : Json → Option Nat
  | Json.num n => if 0 ≤ n ∧ n < 256 then some n.toNat else none
  | _ => none

/-- Deserialize an `Option<T>` field under serde's rules: a missing field or
an explicit `null` is `None`; any other value must decode. -/
def decodeOptField {α : Type} (dec : Json → Option α)
    (fields : List (String × Json)) (name : String) : Option (Option α) :=
  match getField? fields name with
  | none => some none
  | some Json.null => some none
  | some j => (dec j).map some

/-- The serde-derived deserializer for one `InToken` record (with the
`#[serde(rename = ...)]` field names from the source): `tokens`, `full` and
`canonical` are required, every other field is optional, unknown fields are
ignored. -/
def decodeInToken : Json → Option InToken
  | Json.obj fields => do
    let tokens ← (getField? fields "tokens").bind decodeStringArray
    let full ← (getField? fields "full").bind decodeString
    let canonical ← (getField? fields "canonical").bind decodeString
    let note ← decodeOptField decodeString fields "note"
    let oc ← decodeOptField decodeStringArray fields "onlyCountries"
    let ol ← decodeOptField decodeStringArray fields "onlyLayers"
    let pf ← decodeOptField decodeBool fields "preferFull"
    let rx ← decodeOptField decodeBool fields "regex"
    let sb ← decodeOptField decodeBool fields "skipBoundaries"
    let sd ← decodeOptField decodeBool fields "skipDiacriticStripping"
    let sp ← decodeOptField decodeU8 fields "spanBoundaries"
    let tt ← decodeOptField decodeString fields "type"
    some
      { tokens := tokens
        full := full
        canonical := canonical
        note := note
        only_countries := oc
        only_layers := ol
        prefer_full := pf
        regex := rx
        skip_boundaries := sb
        skip_diacritic_stripping := sd
        span_boundaries := sp
        token_type := tt }
  | _ => none

/-! Concrete collaborators used to instantiate the parameterized theorems on
closed inputs. -/

/-- A regex compiler: the pattern `"(?=x)"` fails with the look-around
message, `"("` fails with a different message, anything else compiles. -/
def compileW : RegexCompiler := fun s =>
  if s = "(?=x)" then
    Except.error ("regex parse error: " ++ lookaroundMsg)
  else if s = "(" then
    Except.error "regex parse error: unclosed group"
  else Except.ok { as_str := s, rep := 0 }

/-- A record whose regex compilation fails with the look-around message. -/
def recSkipW : InToken :=
  { tokens := ["x"]
    full := "(?=x)"
    canonical := "c"
    note := none
    only_countries := none
    only_layers := none
    prefer_full := none
    regex := some true
    skip_boundaries := none
    skip_diacritic_stripping := none
    span_boundaries := none
    token_type := none }

/-- A parser: the raw text `"SKIPALL"` holds exactly the look-around record,
any other text holds no records. -/
def parseW : JsonParser := fun s =>
  if s = "SKIPALL" then some [recSkipW] else some []

/-- Raw data: language `"de"` carries the `"SKIPALL"` text. -/
def rawDataW : String → String := fun lc =>
  if lc = "de" then "SKIPALL" else ""

/-- A record whose regex compilation fails with a non-look-around message. -/
def recHardW : InToken :=
  { recSkipW with full := "(" }

/-! Helper lemmas. -/

theorem from_str_not_mem (s : String)
    (h : s ∉ (["box", "cardinal", "number", "ordinal", "unit", "way"] :
      List String)) :
    TokenType.from_str s = Except.error (Error.TokenTypeNotSupported s) := by
  simp only [List.mem_cons, List.not_mem_nil, or_false, not_or] at h
  obtain ⟨h1, h2, h3, h4, h5, h6⟩ := h
  simp [TokenType.from_str, h1, h2, h3, h4, h5, h6]

theorem from_input_regex_err (compile : RegexCompiler) (input : InToken)
    (msg : String) (hre : input.regex = some true)
    (herr : compile input.full = Except.error msg) :
    Token.from_input compile input = Except.error (Error.RegexError msg) := by
  simp [Token.from_input, hre, herr, Error.fromRegexError]

/-! Claim theorems. -/

/-- Claim C4: during catalog building, a record whose `full` regex fails to
compile with a look-around message is skipped — the rest still processed —
after a warning naming the offending `full` value; any other compilation
failure aborts the build with `RegexError(message)`. -/
theorem processRecords_lookaround_policy (compile : RegexCompiler)
    (tk : InToken) (rest : List InToken) (msg : String)
    (hre : tk.regex = some true)
    (herr : compile tk.full = Except.error msg) :
    (strContains msg lookaroundMsg = true →
      processRecords compile (tk :: rest) =
        ((processRecords compile rest).1,
          lookaroundWarn tk.full :: (processRecords compile rest).2)) ∧
    (strContains msg lookaroundMsg = false →
      processRecords compile (tk :: rest) =
        (Except.error (Error.RegexError msg), [])) := by
  have hfi := from_input_regex_err compile tk msg hre herr
  constructor
  · intro hc
    rcases hpr : processRecords compile rest with ⟨r, ws⟩
    simp [processRecords, hfi, hc, hpr]
  · intro hc
    simp [processRecords, hfi, hc]

theorem processRecords_lookaround_policy_witness :
    processRecords compileW (recSkipW :: []) =
      ((processRecords compileW []).1,
        lookaroundWarn recSkipW.full :: (processRecords compileW []).2) ∧
    processRecords compileW (recHardW :: []) =
      (Except.error (Error.RegexError "regex parse error: unclosed group"),
        []) :=
  ⟨(processRecords_lookaround_policy compileW recSkipW []
      ("regex parse error: " ++ lookaroundMsg) (by decide) (by decide)).1
      (by decide),
   (processRecords_lookaround_policy compileW recHardW []
      "regex parse error: unclosed group" (by decide) (by decide)).2
      (by decide)⟩

/-- Claim C5: the token-type classifier maps exactly the six case-sensitive
strings to their variants; every other string fails with
`TokenTypeNotSupported`, which aborts the catalog build; a record without a
`type` field yields `token_type = none`. -/
theorem token_type_classifier_spec :
    TokenType.from_str "box" = Except.ok TokenType.PostalBox ∧
    TokenType.from_str "cardinal" = Except.ok TokenType.Cardinal ∧
    TokenType.from_str "number" = Except.ok TokenType.Number ∧
    TokenType.from_str "ordinal" = Except.ok TokenType.Ordinal ∧
    TokenType.from_str "unit" = Except.ok TokenType.Unit ∧
    TokenType.from_str "way" = Except.ok TokenType.Way ∧
    (∀ s : String,
      s ∉ (["box", "cardinal", "number", "ordinal", "unit", "way"] :
        List String) →
      TokenType.from_str s = Except.error (Error.TokenTypeNotSupported s)) ∧
    (∀ (compile : RegexCompiler) (input : InToken) (t : Token),
      input.token_type = none →
      Token.from_input compile input = Except.ok t → t.token_type = none) ∧
    (∀ (compile : RegexCompiler) (tk : InToken) (rest : List InToken)
        (s : String),
      tk.token_type = some s →
      (tk.regex = none ∨ tk.regex = some false) →
      s ∉ (["box", "cardinal", "number", "ordinal", "unit", "way"] :
        List String) →
      processRecords compile (tk :: rest) =
        (Except.error (Error.TokenTypeNotSupported s), [])) := by
  refine ⟨by decide, by decide, by decide, by decide, by decide, by decide,
    from_str_not_mem, ?_, ?_⟩
  · intro compile input t hnone h
    have hrest : ∀ rx, Token.from_input_rest input rx =
        Except.ok (Token.from_input_mk input rx none) := by
      intro rx
      simp [Token.from_input_rest, hnone]
    rcases hr : input.regex with _ | b
    · simp only [Token.from_input, hr, hrest, Except.ok.injEq] at h
      subst h
      rfl
    · cases b
      · simp only [Token.from_input, hr, hrest, Except.ok.injEq] at h
        subst h
        rfl
      · rcases hc : compile input.full with e | r
        · simp only [Token.from_input, hr, hc] at h
          exact absurd h (by simp)
        · simp only [Token.from_input, hr, hc, hrest, Except.ok.injEq] at h
          subst h
          rfl
  · intro compile tk rest s hs hre hmem
    have hfi : Token.from_input compile tk =
        Except.error (Error.TokenTypeNotSupported s) := by
      have hrest : Token.from_input_rest tk none =
          Except.error (Error.TokenTypeNotSupported s) := by
        simp [Token.from_input_rest, hs, from_str_not_mem s hmem]
      rcases hre with hre | hre <;> simp [Token.from_input, hre, hrest]
    simp [processRecords, hfi]

theorem token_type_classifier_spec_witness :
    TokenType.from_str "Box" = Except.error (Error.TokenTypeNotSupported "Box") ∧
    processRecords compileW
      ({ recSkipW with regex := none, token_type := some "street" } :: []) =
      (Except.error (Error.TokenTypeNotSupported "street"), []) :=
  ⟨token_type_classifier_spec.2.2.2.2.2.2.1 "Box" (by decide),
   token_type_classifier_spec.2.2.2.2.2.2.2.2 compileW
     { recSkipW with regex := none, token_type := some "street" } [] "street"
     rfl (Or.inl rfl) (by decide)⟩

/-- Claim C6: `Token::new` with `as_regex = false` returns `Ok` with
`tokens = [canonical, full]`, no regex, all optional fields at their
defaults; in particular `Token::new("St", "Street", None, false)` yields
`tokens = ["Street", "St"]`. -/
theorem token_new_defaults (compile : RegexCompiler) (full canonical : String)
    (tt : Option TokenType) :
    Token.new compile full canonical tt false = Except.ok
      { tokens := [canonical, full], full := full, regex := none,
        canonical := canonical, note := none, only_countries := none,
        only_layers := none, prefer_full := false, skip_boundaries := false,
        skip_diacritic_stripping := false, span_boundaries := none,
        token_type := tt } ∧
    Token.new compile "St" "Street" none false = Except.ok
      { tokens := ["Street", "St"], full := "St", regex := none,
        canonical := "Street", note := none, only_countries := none,
        only_layers := none, prefer_full := false, skip_boundaries := false,
        skip_diacritic_stripping := false, span_boundaries := none,
        token_type := none } :=
  ⟨rfl, rfl⟩

/-- Claim C7: token equality compares the `regex` field by source pattern
only: with all non-regex fields equal, two tokens are equal when both lack a
regex or both carry one with the same source — whatever the compiled
representations — and unequal when exactly one has a regex or the sources
differ. -/
theorem token_eq_by_regex_source (t1 t2 : Token)
    (hf : t1.tokens = t2.tokens ∧ t1.full = t2.full ∧
      t1.canonical = t2.canonical ∧ t1.note = t2.note ∧
      t1.only_countries = t2.only_countries ∧
      t1.only_layers = t2.only_layers ∧ t1.prefer_full = t2.prefer_full ∧
      t1.skip_boundaries = t2.skip_boundaries ∧
      t1.skip_diacritic_stripping = t2.skip_diacritic_stripping ∧
      t1.span_boundaries = t2.span_boundaries ∧
      t1.token_type = t2.token_type) :
    (∀ s r1 r2, t1.regex = some { as_str := s, rep := r1 } →
      t2.regex = some { as_str := s, rep := r2 } →
      Token.beq t1 t2 = true) ∧
    (t1.regex = none → t2.regex = none → Token.beq t1 t2 = true) ∧
    (∀ s r, t1.regex = none → t2.regex = some { as_str := s, rep := r } →
      Token.beq t1 t2 = false) ∧
    (∀ s1 r1 s2 r2, t1.regex = some { as_str := s1, rep := r1 } →
      t2.regex = some { as_str := s2, rep := r2 } → s1 ≠ s2 →
      Token.beq t1 t2 = false) := by
  obtain ⟨h1, h2, h3, h4, h5, h6, h7, h8, h9, h10, h11⟩ := hf
  refine ⟨?_, ?_, ?_, ?_⟩
  · intro s r1 r2 hr1 hr2
    simp [Token.beq, hr1, hr2, h1, h2, h3, h4, h5, h6, h7, h8, h9, h10, h11]
  · intro hr1 hr2
    simp [Token.beq, hr1, hr2, h1, h2, h3, h4, h5, h6, h7, h8, h9, h10, h11]
  · intro s r hr1 hr2
    simp [Token.beq, hr1, hr2]
  · intro s1 r1 s2 r2 hr1 hr2 hne
    simp [Token.beq, hr1, hr2, hne]

/-- A token with a compiled regex, for equality tests: the non-regex fields
are fixed, the regex source and compiled representation vary. -/
def tokRegexW (src : String) (rep : Nat) : Token :=
  { tokens := ["a"], full := "f", regex := some { as_str := src, rep := rep },
    canonical := "b", note := none, only_countries := none,
    only_layers := none, prefer_full := false, skip_boundaries := false,
    skip_diacritic_stripping := false, span_boundaries := none,
    token_type := none }

/-- The same token shape with no regex. -/
def tokPlainW : Token :=
  { tokRegexW "p" 0 with regex := none }

theorem token_eq_by_regex_source_witness :
    Token.beq (tokRegexW "p" 0) (tokRegexW "p" 1) = true ∧
    Token.beq tokPlainW (tokRegexW "p" 1) = false ∧
    Token.beq (tokRegexW "p" 0) (tokRegexW "q" 0) = false := by
  have h01 := token_eq_by_regex_source (tokRegexW "p" 0) (tokRegexW "p" 1)
    (by refine ⟨rfl, rfl, rfl, rfl, rfl, rfl, rfl, rfl, rfl, rfl, rfl⟩)
  have h02 := token_eq_by_regex_source tokPlainW (tokRegexW "p" 1)
    (by refine ⟨rfl, rfl, rfl, rfl, rfl, rfl, rfl, rfl, rfl, rfl, rfl⟩)
  have h03 := token_eq_by_regex_source (tokRegexW "p" 0) (tokRegexW "q" 0)
    (by refine ⟨rfl, rfl, rfl, rfl, rfl, rfl, rfl, rfl, rfl, rfl, rfl⟩)
  exact ⟨h01.1 "p" 0 1 rfl rfl, h02.2.2.1 "p" 1 rfl rfl,
    h03.2.2.2 "p" 0 "q" 0 rfl rfl (by decide)⟩

/-- Claim C10: `Token::new` with `as_regex = false` never fails, whatever the
`full` pattern would do under compilation. -/
theorem token_new_no_regex_total (compile : RegexCompiler)
    (full canonical : String) (tt : Option TokenType) :
    ∃ t, Token.new compile full canonical tt false = Except.ok t :=
  ⟨_, rfl⟩

/-- The record a JSON object with an empty `tokens` array deserializes to. -/
def inTokEmptyW : InToken :=
  { tokens := [], full := "a", canonical := "b", note := none,
    only_countries := none, only_layers := none, prefer_full := none,
    regex := none, skip_boundaries := none, skip_diacritic_stripping := none,
    span_boundaries := none, token_type := none }

/-- Claim C8, counterexample: a raw record whose `tokens` array is empty is
accepted by the deserializer and carried through `Token::from_input`
unchanged — the resulting token has an empty `tokens` sequence, so the claim
that such records are rejected fails on the code. -/
theorem parser_accepts_empty_tokens :
    decodeInToken (Json.obj [("tokens", Json.arr []), ("full", Json.str "a"),
      ("canonical", Json.str "b")]) = some inTokEmptyW ∧
    Token.from_input compileW inTokEmptyW =
      Except.ok (Token.from_input_mk inTokEmptyW none none) ∧
    (Token.from_input_mk inTokEmptyW none none).tokens = [] :=
  ⟨rfl, rfl, rfl⟩

theorem from_input_rest_tokens (input : InToken) (rx : Option Regex)
    (t : Token) (h : Token.from_input_rest input rx = Except.ok t) :
    t.tokens = input.tokens := by
  unfold Token.from_input_rest at h
  rcases htt : input.token_type with _ | s
  · simp only [htt, Except.ok.injEq] at h
    subst h
    rfl
  · simp only [htt] at h
    rcases hfs : TokenType.from_str s with e | t'
    · simp [hfs] at h
    · simp only [hfs, Except.ok.injEq] at h
      subst h
      rfl

/-- Claim C8, amended: parsing and compilation perform no non-emptiness check
on `tokens` — `Token::from_input` carries the list through unchanged, so the
produced token's `tokens` is non-empty exactly when the raw record's is. -/
theorem from_input_preserves_tokens (compile : RegexCompiler)
    (input : InToken) (t : Token)
    (h : Token.from_input compile input = Except.ok t) :
    t.tokens = input.tokens ∧ (t.tokens ≠ [] ↔ input.tokens ≠ []) := by
  have ht : t.tokens = input.tokens := by
    unfold Token.from_input at h
    rcases hr : input.regex with _ | b
    · simp only [hr] at h
      exact from_input_rest_tokens input none t h
    · cases b
      · simp only [hr] at h
        exact from_input_rest_tokens input none t h
      · simp only [hr] at h
        rcases hc : compile input.full with e | r
        · simp [hc] at h
        · simp only [hc] at h
          exact from_input_rest_tokens input (some r) t h
  exact ⟨ht, by rw [ht]⟩

/-- The look-around record with regex compilation turned off. -/
def recNoRegexW : InToken :=
  { recSkipW with regex := none }

theorem from_input_preserves_tokens_witness :
    (Token.from_input_mk recNoRegexW none none).tokens = recNoRegexW.tokens ∧
    ((Token.from_input_mk recNoRegexW none none).tokens ≠ [] ↔
      recNoRegexW.tokens ≠ []) :=
  from_input_preserves_tokens compileW recNoRegexW
    (Token.from_input_mk recNoRegexW none none) rfl

theorem import'_mem (rawData : String → String) (lc : String)
    (h : lc ∈ LANGUAGE_CODES) : import' rawData lc = Except.ok (rawData lc) := by
  fin_cases h <;> rfl

theorem import'_not_mem (rawData : String → String) (lc : String)
    (h : lc ∉ LANGUAGE_CODES) :
    import' rawData lc =
      Except.error (Error.TokenFileImportNotSupported lc) := by
  simp only [LANGUAGE_CODES, List.mem_cons, List.not_mem_nil, or_false,
    not_or] at h
  obtain ⟨h1, h2, h3, h4, h5, h6, h7, h8, h9, h10, h11, h12, h13, h14, h15,
    h16, h17⟩ := h
  simp [import', h1, h2, h3, h4, h5, h6, h7, h8, h9, h10, h11, h12, h13,
    h14, h15, h16, h17]

theorem from_str_error_kind (s : String) (e : Error)
    (h : TokenType.from_str s = Except.error e) :
    e = Error.TokenTypeNotSupported s := by
  unfold TokenType.from_str at h
  split_ifs at h
  all_goals simp_all

theorem from_input_rest_error_kind (input : InToken) (rx : Option Regex)
    (e : Error) (h : Token.from_input_rest input rx = Except.error e) :
    ∃ s, e = Error.TokenTypeNotSupported s := by
  unfold Token.from_input_rest at h
  rcases htt : input.token_type with _ | s
  · simp [htt] at h
  · simp only [htt] at h
    rcases hfs : TokenType.from_str s with e' | t'
    · simp only [hfs, Except.error.injEq] at h
      exact ⟨s, by rw [← h, from_str_error_kind s e' hfs]⟩
    · simp [hfs] at h

theorem from_input_error_kind (compile : RegexCompiler) (input : InToken)
    (e : Error) (h : Token.from_input compile input = Except.error e) :
    (∃ m, e = Error.RegexError m) ∨ (∃ s, e = Error.TokenTypeNotSupported s) := by
  unfold Token.from_input at h
  rcases hr : input.regex with _ | b
  · simp only [hr] at h
    exact Or.inr (from_input_rest_error_kind input none e h)
  · cases b
    · simp only [hr] at h
      exact Or.inr (from_input_rest_error_kind input none e h)
    · simp only [hr] at h
      rcases hc : compile input.full with m | r
      · simp only [hc, Except.error.injEq] at h
        exact Or.inl ⟨m, by rw [← h]; rfl⟩
      · simp only [hc] at h
        exact Or.inr (from_input_rest_error_kind input (some r) e h)

theorem processRecords_error_kind (compile : RegexCompiler) :
    ∀ (recs : List InToken) (e : Error) (ws : List String),
    processRecords compile recs = (Except.error e, ws) →
    (∃ m, e = Error.RegexError m) ∨
      (∃ s, e = Error.TokenTypeNotSupported s) := by
  intro recs
  induction recs with
  | nil =>
    intro e ws h
    simp [processRecords] at h
  | cons tk rest ih =>
    intro e ws h
    unfold processRecords at h
    rcases hfi : Token.from_input compile tk with err | o
    · simp only [hfi] at h
      rcases from_input_error_kind compile tk err hfi with ⟨m, rfl⟩ | ⟨s, rfl⟩
      · cases hcb : strContains m lookaroundMsg
        · simp only [hcb, Bool.false_eq_true, if_false, Prod.mk.injEq] at h
          exact Or.inl ⟨m, by simp_all⟩
        · rcases hpr : processRecords compile rest with ⟨r, ws'⟩
          simp only [hcb, if_true, hpr, Prod.mk.injEq] at h
          exact ih e ws' (by rw [hpr, h.1])
      · simp only [Prod.mk.injEq] at h
        exact Or.inr ⟨s, by simp_all⟩
    · simp only [hfi] at h
      rcases hpr : processRecords compile rest with ⟨r, ws'⟩
      rw [hpr] at h
      rcases r with e' | toks
      · simp only [Prod.mk.injEq, Except.error.injEq] at h
        exact ih e ws' (by rw [hpr, h.1])
      · simp at h

theorem validateCodes_ok_mem :
    ∀ (v : List String), validateCodes v = Except.ok () →
    ∀ lc, lc ∈ v → lc ∈ LANGUAGE_CODES := by
  intro v
  induction v with
  | nil => intro _ lc hlc; exact absurd hlc (List.not_mem_nil lc)
  | cons a rest ih =>
    intro h lc hlc
    unfold validateCodes at h
    by_cases ha : a ∈ LANGUAGE_CODES
    · rw [if_pos ha] at h
      rcases List.mem_cons.mp hlc with rfl | hlc'
      · exact ha
      · exact ih h lc hlc'
    · rw [if_neg ha] at h
      cases h

theorem validateCodes_error_kind :
    ∀ (v : List String) (e : Error), validateCodes v = Except.error e →
    ∃ lc, e = Error.LanguageCodeNotSupported lc := by
  intro v
  induction v with
  | nil => intro e h; cases h
  | cons a rest ih =>
    intro e h
    unfold validateCodes at h
    by_cases ha : a ∈ LANGUAGE_CODES
    · rw [if_pos ha] at h
      exact ih e h
    · rw [if_neg ha] at h
      cases h
      exact ⟨a, rfl⟩

theorem prepareGo_no_import_error (compile : RegexCompiler)
    (parse : JsonParser) (rawData : String → String) :
    ∀ (v : List String) (acc : HMap) (res : Except Error HMap),
    (∀ lc, lc ∈ v → lc ∈ LANGUAGE_CODES) →
    prepareGo compile parse rawData v acc = some res →
    ∀ c, res ≠ Except.error (Error.TokenFileImportNotSupported c) := by
  intro v
  induction v with
  | nil =>
    intro acc res _ h c
    unfold prepareGo at h
    cases h
    simp
  | cons lc rest ih =>
    intro acc res hmem h c
    have hlc := import'_mem rawData lc (hmem lc (List.mem_cons_self lc rest))
    unfold prepareGo at h
    simp only [hlc] at h
    rcases hp : parse (rawData lc) with _ | parsed
    · simp only [hp] at h
      cases h
    · simp only [hp] at h
      rcases hpr : processRecords compile parsed with ⟨r, ws⟩
      simp only [hpr] at h
      rcases r with e | toks
      · cases h
        rcases processRecords_error_kind compile parsed e ws hpr with
          ⟨m, rfl⟩ | ⟨s, rfl⟩ <;> simp
      · exact ih (hmInsert acc lc toks) res
          (fun lc' hlc' => hmem lc' (List.mem_cons_of_mem lc hlc')) h c

/-- Claim C9: the source provider errs exactly outside the fixed registry —
every registry code resolves to its raw data, every other code fails with
`TokenFileImportNotSupported` — and `config`, which validates codes before
fetching, can never surface that error kind. -/
theorem import_error_boundary (rawData : String → String) :
    (∀ lc, lc ∈ LANGUAGE_CODES →
      import' rawData lc = Except.ok (rawData lc)) ∧
    (∀ lc, lc ∉ LANGUAGE_CODES →
      import' rawData lc =
        Except.error (Error.TokenFileImportNotSupported lc)) ∧
    (∀ (compile : RegexCompiler) (parse : JsonParser) (v : List String)
        (res : Except Error HMap),
      config compile parse rawData v = some res →
      ∀ c, res ≠ Except.error (Error.TokenFileImportNotSupported c)) := by
  refine ⟨import'_mem rawData, import'_not_mem rawData, ?_⟩
  intro compile parse v res h c
  unfold config at h
  by_cases hv : v.isEmpty
  · rw [if_pos hv] at h
    exact prepareGo_no_import_error compile parse rawData LANGUAGE_CODES []
      res (fun lc hlc => hlc) h c
  · rw [if_neg hv] at h
    rcases hval : validateCodes v with e | u
    · rw [hval] at h
      cases h
      obtain ⟨lc, rfl⟩ := validateCodes_error_kind v e hval
      simp
    · cases u
      rw [hval] at h
      exact prepareGo_no_import_error compile parse rawData v [] res
        (validateCodes_ok_mem v hval) h c

theorem hmKeys_insert (m : HMap) (k : String) (v : List Token) :
    ∀ x, x ∈ hmKeys (hmInsert m k v) ↔ (x = k ∨ x ∈ hmKeys m) := by
  induction m with
  | nil => intro x; simp [hmInsert, hmKeys]
  | cons p rest ih =>
    intro x
    rcases p with ⟨k', v'⟩
    by_cases hk : k' = k
    · subst hk
      simp [hmInsert, hmKeys]
    · simp only [hmKeys] at ih ⊢
      simp only [hmInsert, if_neg hk, List.map_cons, List.mem_cons]
      rw [ih x]
      tauto

theorem hmFind?_insert_self (m : HMap) (k : String) (v : List Token) :
    hmFind? (hmInsert m k v) k = some v := by
  induction m with
  | nil => simp [hmInsert, hmFind?]
  | cons p rest ih =>
    rcases p with ⟨k', v'⟩
    by_cases hk : k' = k
    · subst hk
      simp [hmInsert, hmFind?]
    · simp only [hmInsert, if_neg hk, hmFind?]
      exact ih

theorem hmFind?_insert_other (m : HMap) (k : String) (v : List Token)
    (x : String) (hx : x ≠ k) :
    hmFind? (hmInsert m k v) x = hmFind? m x := by
  induction m with
  | nil => simp [hmInsert, hmFind?, Ne.symm hx]
  | cons p rest ih =>
    rcases p with ⟨k', v'⟩
    by_cases hk : k' = k
    · subst hk
      simp [hmInsert, hmFind?, Ne.symm hx]
    · by_cases hx' : k' = x
      · subst hx'
        simp [hmInsert, if_neg hk, hmFind?]
      · simp only [hmInsert, if_neg hk, hmFind?]
        rw [if_neg hx', if_neg hx', ih]

theorem prepareGo_ok (compile : RegexCompiler) (parse : JsonParser)
    (rawData : String → String) :
    ∀ (v : List String) (acc : HMap),
    (∀ lc, lc ∈ v → lc ∈ LANGUAGE_CODES) →
    (∀ lc, lc ∈ v → (langTokens compile parse rawData lc).isSome) →
    ∃ m, prepareGo compile parse rawData v acc = some (Except.ok m) ∧
      (∀ k, k ∈ hmKeys m ↔ (k ∈ v ∨ k ∈ hmKeys acc)) ∧
      (∀ lc, lc ∈ v →
        hmFind? m lc = langTokens compile parse rawData lc) ∧
      (∀ lc, lc ∉ v → hmFind? m lc = hmFind? acc lc) := by
  intro v
  induction v with
  | nil =>
    intro acc _ _
    exact ⟨acc, rfl, by simp, by simp, fun lc _ => rfl⟩
  | cons lc rest ih =>
    intro acc hmem hok
    have hlc := import'_mem rawData lc (hmem lc (List.mem_cons_self lc rest))
    have hlt := hok lc (List.mem_cons_self lc rest)
    obtain ⟨toks, htoks⟩ := Option.isSome_iff_exists.mp hlt
    rcases hp : parse (rawData lc) with _ | parsed
    · simp only [langTokens, hp] at htoks
      exact absurd htoks (by simp)
    · rcases hpr : processRecords compile parsed with ⟨r, ws⟩
      rcases r with e | tks
      · simp only [langTokens, hp, hpr] at htoks
        exact absurd htoks (by simp)
      · have htks : tks = toks := by
          simp only [langTokens, hp, hpr, Option.some.injEq] at htoks
          exact htoks
        subst htks
        obtain ⟨m, hm, hkeys, hfind, hnfind⟩ :=
          ih (hmInsert acc lc tks)
            (fun lc' hlc' => hmem lc' (List.mem_cons_of_mem lc hlc'))
            (fun lc' hlc' => hok lc' (List.mem_cons_of_mem lc hlc'))
        refine ⟨m, ?_, ?_, ?_, ?_⟩
        · unfold prepareGo
          simp only [hlc, hp, hpr]
          exact hm
        · intro k
          rw [hkeys k]
          have := hmKeys_insert acc lc tks k
          simp only [List.mem_cons]
          tauto
        · intro lc' hlc'
          by_cases hr : lc' ∈ rest
          · exact hfind lc' hr
          · have heq : lc' = lc := by
              rcases List.mem_cons.mp hlc' with h | h
              · exact h
              · exact absurd h hr
            subst heq
            rw [hnfind lc' hr, hmFind?_insert_self]
            simp only [langTokens, hp, hpr]
        · intro lc' hlc'
          have h1 : lc' ∉ rest := fun h => hlc' (List.mem_cons_of_mem lc h)
          have h2 : lc' ≠ lc := fun h =>
            hlc' (h ▸ List.mem_cons_self lc rest)
          rw [hnfind lc' h1, hmFind?_insert_other acc lc tks lc' h2]

theorem validateCodes_all_ok :
    ∀ (v : List String), (∀ lc, lc ∈ v → lc ∈ LANGUAGE_CODES) →
    validateCodes v = Except.ok () := by
  intro v
  induction v with
  | nil => intro _; rfl
  | cons a rest ih =>
    intro h
    unfold validateCodes
    rw [if_pos (h a (List.mem_cons_self a rest))]
    exact ih (fun lc hlc => h lc (List.mem_cons_of_mem a hlc))

theorem validateCodes_find :
    ∀ (v : List String) (c : String),
    v.find? (fun lc => !(decide (lc ∈ LANGUAGE_CODES))) = some c →
    validateCodes v = Except.error (Error.LanguageCodeNotSupported c) := by
  intro v
  induction v with
  | nil => intro c h; simp [List.find?] at h
  | cons a rest ih =>
    intro c h
    by_cases ha : a ∈ LANGUAGE_CODES
    · rw [List.find?_cons_of_neg _ (by simp [ha])] at h
      unfold validateCodes
      rw [if_pos ha]
      exact ih c h
    · rw [List.find?_cons_of_pos _ (by simp [ha])] at h
      have hac := Option.some.inj h
      subst hac
      unfold validateCodes
      rw [if_neg ha]

/-- Claim C1: for a non-empty request of registry codes whose data processes
cleanly (the `tokens/*.json` files are outside the embedded sources; per the
spec they parse and compile without hard errors, here a hypothesis), `config`
returns `Ok` with key set exactly the requested codes, each mapped to its
processed token list; a language whose records were all skipped is present,
mapped to the empty list. -/
theorem config_valid_subset_keys (compile : RegexCompiler)
    (parse : JsonParser) (rawData : String → String) (v : List String)
    (hne : v ≠ [])
    (hmem : ∀ lc, lc ∈ v → lc ∈ LANGUAGE_CODES)
    (hok : ∀ lc, lc ∈ v → (langTokens compile parse rawData lc).isSome) :
    ∃ m, config compile parse rawData v = some (Except.ok m) ∧
      (∀ k, k ∈ hmKeys m ↔ k ∈ v) ∧
      (∀ lc, lc ∈ v →
        hmFind? m lc = langTokens compile parse rawData lc) ∧
      (∀ lc, lc ∈ v → langTokens compile parse rawData lc = some [] →
        hmFind? m lc = some []) := by
  obtain ⟨m, hm, hkeys, hfind, _⟩ :=
    prepareGo_ok compile parse rawData v [] hmem hok
  have hie : v.isEmpty = false := by
    cases v
    · exact absurd rfl hne
    · rfl
  refine ⟨m, ?_, ?_, hfind, ?_⟩
  · simp only [config, hie, Bool.false_eq_true, if_false,
      validateCodes_all_ok v hmem]
    exact hm
  · intro k
    rw [hkeys k]
    simp [hmKeys]
  · intro lc hlc hempty
    rw [hfind lc hlc, hempty]

theorem config_valid_subset_keys_witness :
    ∃ m, config compileW parseW rawDataW ["de", "en"] =
        some (Except.ok m) ∧
      (∀ k, k ∈ hmKeys m ↔ k ∈ (["de", "en"] : List String)) ∧
      (∀ lc, lc ∈ (["de", "en"] : List String) →
        hmFind? m lc = langTokens compileW parseW rawDataW lc) ∧
      (∀ lc, lc ∈ (["de", "en"] : List String) →
        langTokens compileW parseW rawDataW lc = some [] →
        hmFind? m lc = some []) :=
  config_valid_subset_keys compileW parseW rawDataW ["de", "en"]
    (by decide) (by decide) (by decide)

/-- Claim C2: `config []` returns `Ok` with key set the full fixed registry
of 17 codes, and is the very result of calling the internal `prepare` step
with all codes. -/
theorem config_empty_full_registry (compile : RegexCompiler)
    (parse : JsonParser) (rawData : String → String)
    (hok : ∀ lc, lc ∈ LANGUAGE_CODES →
      (langTokens compile parse rawData lc).isSome) :
    config compile parse rawData [] =
      prepare compile parse rawData LANGUAGE_CODES ∧
    ∃ m, config compile parse rawData [] = some (Except.ok m) ∧
      (∀ k, k ∈ hmKeys m ↔ k ∈ LANGUAGE_CODES) := by
  have h1 : config compile parse rawData [] =
      prepare compile parse rawData LANGUAGE_CODES := rfl
  obtain ⟨m, hm, hkeys, _, _⟩ :=
    prepareGo_ok compile parse rawData LANGUAGE_CODES []
      (fun lc h => h) hok
  refine ⟨h1, m, ?_, ?_⟩
  · rw [h1]
    exact hm
  · intro k
    rw [hkeys k]
    simp [hmKeys]

theorem config_empty_full_registry_witness :
    config compileW parseW rawDataW [] =
      prepare compileW parseW rawDataW LANGUAGE_CODES ∧
    ∃ m, config compileW parseW rawDataW [] = some (Except.ok m) ∧
      (∀ k, k ∈ hmKeys m ↔ k ∈ LANGUAGE_CODES) :=
  config_empty_full_registry compileW parseW rawDataW (by decide)

/-- Claim C3: with at least one requested code outside the registry, `config`
fails with `LanguageCodeNotSupported` naming the first offending code in
input order; the result is identical for every compiler, parser and data
source, so no language data is fetched, parsed or compiled before the
error. -/
theorem config_first_invalid_code (compile : RegexCompiler)
    (parse : JsonParser) (rawData : String → String) (v : List String)
    (c : String)
    (hfirst : v.find? (fun lc => !(decide (lc ∈ LANGUAGE_CODES))) = some c) :
    config compile parse rawData v =
      some (Except.error (Error.LanguageCodeNotSupported c)) := by
  have hne : v ≠ [] := by
    intro h
    subst h
    simp [List.find?] at hfirst
  have hie : v.isEmpty = false := by
    cases v
    · exact absurd rfl hne
    · rfl
  simp only [config, hie, Bool.false_eq_true, if_false,
    validateCodes_find v c hfirst]

theorem config_first_invalid_code_witness :
    config compileW parseW rawDataW ["en", "zz", "qq"] =
      some (Except.error (Error.LanguageCodeNotSupported "zz")) :=
  config_first_invalid_code compileW parseW rawDataW ["en", "zz", "qq"]
    "zz" (by decide)

theorem import_error_boundary_witness :
    import' rawDataW "de" = Except.ok (rawDataW "de") ∧
    import' rawDataW "zz" =
      Except.error (Error.TokenFileImportNotSupported "zz") ∧
    Except.error (Error.LanguageCodeNotSupported "zz") ≠
      (Except.error (Error.TokenFileImportNotSupported "zz") :
        Except Error HMap) :=
  ⟨(import_error_boundary rawDataW).1 "de" (by decide),
   (import_error_boundary rawDataW).2.1 "zz" (by decide),
   (import_error_boundary rawDataW).2.2 compileW parseW ["zz"]
     (Except.error (Error.LanguageCodeNotSupported "zz")) (by decide) "zz"⟩

end GeocoderAbbrev
